import Mathlib

/-!
# Inventory repository over a document store

A shallow embedding of `pkg/inventory/mongodb/repository.go`.

The document store is modelled as an in-memory list of documents in
store-native (insertion) order.  Every stored document carries an `_id`
of its own; all other fields are kept as an association list.  The
driver primitives used by the repository (`Find`, `FindOne`,
`BulkWrite` of upserting `UpdateOne` models) are total functions on that
state; transport failures are outside the model.  Go run-time panics and
driver errors are results of type `Err`.
-/

deriving instance DecidableEq for Except

namespace Inventory

/-- Failures an operation can end with. -/
inductive Err where
  /-- Go run-time panic: index out of range. -/
  | indexOutOfRange
  /-- Driver error `mongo.ErrNoDocuments` of `FindOne(..).Decode`. -/
  | errNoDocuments
  /-- Server write error: an update would modify the immutable field `_id`. -/
  | immutableField
  /-- Driver error `mongo.ErrEmptySlice`: a bulk write without any model. -/
  | errEmptySlice
  /-- Server error `BadValue`: the operand of `$in` is not an array. -/
  | badValue
  deriving DecidableEq, Repr

/-- Modelled from the spec: the type `inventory.Item` (its declaration is
outside the source at hand).  The fields are those the spec names and the
repository uses: `ID` (stored as `_id`), `OwnerID` (stored as `owner_id`)
and `Name` (stored as `name`). -/
structure Item where
  ID : String
  OwnerID : String
  Name : String
  deriving DecidableEq, Repr

/-- Modelled from the spec: the type `inventory.GetItemsRequest`; a nil
`Token` is `none`. -/
structure GetItemsRequest where
  PageSize : Int
  Token : Option String
  deriving DecidableEq, Repr

/-- Modelled from the spec: the type `inventory.GetItemsResponse`; a `Token`
that was never assigned is `none`. -/
structure GetItemsResponse where
  Items : List Item
  Token : Option String
  deriving DecidableEq, Repr

/-- A stored document: its `_id` and its remaining fields. -/
structure Document where
  _id : String
  fields : List (String × String)
  deriving DecidableEq, Repr

/-- The collection `inventory`, in store-native order. -/
abbrev Collection := List Document

/-- A condition on one field of a filter document. -/
inductive Cond where
  /-- Matches a field equal to the value: `{k: v}`. -/
  | eq (v : String)
  /-- Matches a field strictly greater than the value: `{k: {"$gt": v}}`. -/
  | gt (v : String)
  /-- Matches a field that occurs in the list: `{k: {"$in": vs}}`. -/
  | isIn (vs : List String)
  deriving DecidableEq, Repr

/-- A filter document (`bson.M`): keys with their conditions, all of which
have to hold. -/
abbrev Filter := List (String × Cond)

/-- Assignment `m[k] = v` on a map kept as an association list. -/
def setKey {β : Type} (k : String) (v : β) : List (String × β) → List (String × β)
  | [] => [(k, v)]
  | (k', x) :: r => if k' = k then (k, v) :: r else (k', x) :: setKey k v r

/-- The order of the store on strings, character by character; it is the
order `<` of `String`, spelled out on the characters. -/
def strLt (a b : String) : Prop := a.toList < b.toList

instance (a b : String) : Decidable (strLt a b) :=
  inferInstanceAs (Decidable (a.toList < b.toList))

/-- The order `≤` of the store on strings. -/
def strLe (a b : String) : Prop := a.toList ≤ b.toList

instance (a b : String) : Decidable (strLe a b) :=
  inferInstanceAs (Decidable (a.toList ≤ b.toList))

instance : IsTotal Document (fun a b => strLe a._id b._id) :=
  ⟨fun a b => by
    simp only [strLe, ← String.le_iff_toList_le]
    exact le_total _ _⟩

instance : IsTrans Document (fun a b => strLe a._id b._id) :=
  ⟨fun a b c => by
    simp only [strLe, ← String.le_iff_toList_le]
    exact le_trans⟩

instance : IsAntisymm Document (fun a b => a._id < b._id) :=
  ⟨fun _ _ h1 h2 => absurd h1 (lt_asymm h2)⟩

/-- Value of a field of a document. -/
def Document.get (d : Document) (k : String) : Option String :=
  if k = "_id" then some d._id else d.fields.lookup k

/-- Whether a field value satisfies a condition; an absent field satisfies none. -/
def Cond.holds : Cond → Option String → Bool
  | _, none => false
  | .eq v, some x => decide (x = v)
  | .gt v, some x => decide (strLt v x)
  | .isIn vs, some x => decide (x ∈ vs)

/-- Whether a document matches every condition of a filter. -/
def Document.matches (f : Filter) (d : Document) : Bool :=
  f.all fun kc => kc.2.holds (d.get kc.1)

/-- Options of `Find`: `SetSort(bson.M{"_id": 1})` and `SetLimit(n)`. -/
structure FindOptions where
  sortById : Bool
  limit : Option Int
  deriving DecidableEq, Repr

/-- Ascending sort on `_id` (stable). -/
def sortAsc (l : List Document) : List Document :=
  l.insertionSort (fun a b => strLe a._id b._id)

/-- The effect of a limit on a result: `0` is no limit, the store takes the
absolute value of a negative limit. -/
def applyLimit (limit : Option Int) (l : List Document) : List Document :=
  match limit with
  | none => l
  | some n => if n = 0 then l else l.take n.natAbs

/-- The store primitive `Find` followed by `cursor.All`: the matching
documents, sorted and limited as the options say. -/
def find (c : Collection) (f : Filter) (o : FindOptions) : List Document :=
  let m := c.filter (Document.matches f)
  applyLimit o.limit (if o.sortById then sortAsc m else m)

/-- Decoding of a stored document into an `Item`; an absent field decodes
to the zero value. -/
def decode (d : Document) : Item :=
  { ID := d._id
    OwnerID := (d.get "owner_id").getD ""
    Name := (d.get "name").getD "" }

/-- Encoding of an `Item` as the fields of a document. -/
def encode (i : Item) : List (String × String) :=
  [("_id", i.ID), ("owner_id", i.OwnerID), ("name", i.Name)]

/-- The page size a paginated read works with: `if req.PageSize < 1
{ req.PageSize = 10 }`. -/
def effectivePageSize (req : GetItemsRequest) : Int :=
  if req.PageSize < 1 then 10 else req.PageSize

/-- The token part of a paginated filter: `if req.Token != nil
{ filter["_id"] = bson.M{"$gt": req.Token} }`. -/
def withToken (filter : Filter) (req : GetItemsRequest) : Filter :=
  match req.Token with
  | none => filter
  | some t => setKey "_id" (Cond.gt t) filter

/-- The options of a paginated read:
`options.Find().SetSort(bson.M{"_id": 1}).SetLimit(req.PageSize)`. -/
def pageOptions (req : GetItemsRequest) : FindOptions :=
  { sortById := true, limit := some (effectivePageSize req) }

/-- The filter `Get` builds: `bson.M{}` and the token. -/
def getFilter (req : GetItemsRequest) : Filter :=
  withToken [] req

/-- The filter `GetUserItems` builds: `bson.M{"owner_id": userID}` and the
token. -/
def getUserItemsFilter (userID : String) (req : GetItemsRequest) : Filter :=
  withToken [("owner_id", Cond.eq userID)] req

/-- The index expression `result.Items[len(result.Items)-1]`: a run-time
panic on an empty slice. -/
def lastItem (items : List Item) : Except Err Item :=
  match items.getLast? with
  | none => .error .indexOutOfRange
  | some i => .ok i

/-- The tail of `Get` and `GetUserItems` after `cursor.All`: the last
element is read, and its `ID` becomes the token (a decoded element is
never nil). -/
def respond (items : List Item) : Except Err GetItemsResponse :=
  match lastItem items with
  | .error e => .error e
  | .ok last => .ok { Items := items, Token := some last.ID }

/-- The operation `Get`. -/
def Get (c : Collection) (req : GetItemsRequest) : Except Err GetItemsResponse :=
  respond ((find c (getFilter req) (pageOptions req)).map decode)

/-- The operation `GetUserItems`. -/
def GetUserItems (c : Collection) (userID : String) (req : GetItemsRequest) :
    Except Err GetItemsResponse :=
  respond ((find c (getUserItemsFilter userID req) (pageOptions req)).map decode)

/-- The store primitive `FindOne(..).Decode`: the first matching document,
or `ErrNoDocuments`. -/
def findOne (c : Collection) (f : Filter) : Except Err Document :=
  match c.find? (Document.matches f) with
  | none => .error .errNoDocuments
  | some d => .ok d

/-- The operation `GetByID`; the filter is `bson.M{"_id": id}`. -/
def GetByID (c : Collection) (_userID : String) (id : String) : Except Err Item :=
  match findOne c [("_id", Cond.eq id)] with
  | .error e => .error e
  | .ok d => .ok (decode d)

/-- A Go value of type `[]string`: the nil slice, or a slice with its
elements (which may be none). -/
inductive Slice where
  /-- The nil slice, as in `var ids []string`. -/
  | nil
  /-- A slice that is not nil. -/
  | elems (l : List String)
  deriving DecidableEq, Repr

/-- The BSON value the driver writes for a `[]string`: null (`none`) for
the nil slice, an array otherwise. -/
def Slice.bson : Slice → Option (List String)
  | Slice.nil => none
  | Slice.elems l => some l

/-- The query `{"_id": {"$in": operand}}` as the server reads it: the operand
of `$in` has to be an array. -/
def inFilter (operand : Option (List String)) : Except Err Filter :=
  match operand with
  | none => .error .badValue
  | some vs => .ok [("_id", Cond.isIn vs)]

/-- The operation `GetByIDs`; the filter is `bson.M{"_id": bson.M{"$in": ids}}`
with `ids` handed over as it came, without sort or limit; a failure of `Find`
is returned. -/
def GetByIDs (c : Collection) (ids : Slice) : Except Err (List Item) :=
  match inFilter ids.bson with
  | .error e => .error e
  | .ok f => .ok ((find c f { sortById := false, limit := none }).map decode)

/-- One `mongo.UpdateOneModel`: its filter, the fields of its `$set`
update and its upsert flag. -/
structure UpdateOneModel where
  filter : Filter
  set : List (String × String)
  upsert : Bool
  deriving DecidableEq, Repr

/-- Assignment of one field by `$set`: `_id` is immutable, writing its own
value to it changes nothing. -/
def Document.set (d : Document) (k v : String) : Except Err Document :=
  if k = "_id" then
    if v = d._id then .ok d else .error .immutableField
  else .ok { d with fields := setKey k v d.fields }

/-- The update `$set` of a list of fields on a document: fields of the
document that the list does not name are kept. -/
def applySet (d : Document) : List (String × String) → Except Err Document
  | [] => .ok d
  | (k, v) :: r =>
    match d.set k v with
    | .error e => .error e
    | .ok d' => applySet d' r

/-- The document an upsert starts from when nothing matches: the equality
conditions of the filter. -/
def seed (f : Filter) : Document :=
  f.foldl
    (fun d kc =>
      match kc.2 with
      | Cond.eq v =>
        if kc.1 = "_id" then { d with _id := v }
        else { d with fields := setKey kc.1 v d.fields }
      | _ => d)
    { _id := "", fields := [] }

/-- The write of one `UpdateOneModel`: the first matching document is
updated in place; without a match an upsert appends a new document. -/
def updateOne (m : UpdateOneModel) : Collection → Except Err Collection
  | [] =>
    if m.upsert then
      match applySet (seed m.filter) m.set with
      | .error e => .error e
      | .ok d => .ok [d]
    else .ok []
  | d :: r =>
    if d.matches m.filter then
      match applySet d m.set with
      | .error e => .error e
      | .ok d' => .ok (d' :: r)
    else
      match updateOne m r with
      | .error e => .error e
      | .ok r' => .ok (d :: r')

/-- The models of an ordered bulk write, one after the other; the first
failure ends the write and keeps what was written before it. -/
def runModels : List UpdateOneModel → Collection → Collection × Option Err
  | [], c => (c, none)
  | m :: ms, c =>
    match updateOne m c with
    | .error e => (c, some e)
    | .ok c' => runModels ms c'

/-- The store primitive `BulkWrite`: an empty list of models is refused. -/
def bulkWrite (models : List UpdateOneModel) (c : Collection) : Collection × Option Err :=
  if models = [] then (c, some .errEmptySlice) else runModels models c

/-- The write model `UpdateBulk` builds for one item: filter
`bson.M{"_id": item.ID}`, update `bson.M{"$set": item}`, upsert. -/
def itemModel (item : Item) : UpdateOneModel :=
  { filter := [("_id", Cond.eq item.ID)], set := encode item, upsert := true }

/-- The operation `UpdateBulk`: the collection afterwards and the returned
error. -/
def UpdateBulk (c : Collection) (items : List Item) : Collection × Option Err :=
  bulkWrite (items.map itemModel) c

/-- The write of `itemModel item` spelled out as a function on the
collection (`updateOne_itemModel` proves it is what `updateOne` does): the
first document with the item's `_id` gets `owner_id` and `name` assigned, and
without such a document the item is appended as a new one. -/
def upsertItem (item : Item) : Collection → Collection
  | [] => [{ _id := item.ID, fields := [("owner_id", item.OwnerID), ("name", item.Name)] }]
  | d :: r =>
    if d._id = item.ID then
      { d with fields := setKey "name" item.Name (setKey "owner_id" item.OwnerID d.fields) } :: r
    else d :: upsertItem item r

/-- How a run of the pagination protocol ends. -/
inductive Stop where
  /-- A call returned an empty page. -/
  | emptyPage
  /-- A call failed. -/
  | failed (e : Err)
  /-- The bound on the number of calls was reached. -/
  | bound
  deriving DecidableEq, Repr

/-- The pagination protocol of a caller of `Get`: the first call carries the
given token, each further call the token of the previous response, until a
page is empty; the items of all pages in order, and how the run ended.  The
first argument bounds the number of calls. -/
def paginate (c : Collection) (pageSize : Int) : Nat → Option String → List Item × Stop
  | 0, _ => ([], Stop.bound)
  | fuel + 1, token =>
    match Get c { PageSize := pageSize, Token := token } with
    | .error e => ([], Stop.failed e)
    | .ok r =>
      if r.Items = [] then ([], Stop.emptyPage)
      else
        let rest := paginate c pageSize fuel r.Token
        (r.Items ++ rest.1, rest.2)

/-- The collection of the scenario of the spec: items with IDs "a", "b" and
"c". -/
def abc : Collection :=
  [ { _id := "a", fields := [("owner_id", "u1"), ("name", "x")] },
    { _id := "b", fields := [("owner_id", "u2"), ("name", "y")] },
    { _id := "c", fields := [("owner_id", "u1"), ("name", "z")] } ]

/-- A collection whose one document has a field that `Item` does not have. -/
def stocked : Collection :=
  [{ _id := "a", fields := [("owner_id", "u"), ("name", "n"), ("color", "red")] }]

/-- Two items: one whose ID is stored in `stocked`, one whose ID is new. -/
def delivery : List Item :=
  [{ ID := "a", OwnerID := "v", Name := "m" }, { ID := "d", OwnerID := "w", Name := "x" }]

/-! ## Basic facts of the store model -/

theorem strLt_iff (a b : String) : strLt a b ↔ a < b :=
  String.lt_iff_toList_lt.symm

theorem strLe_iff (a b : String) : strLe a b ↔ a ≤ b :=
  String.le_iff_toList_le.symm

theorem lastItem_nil : lastItem [] = .error .indexOutOfRange := rfl

theorem respond_nil : respond [] = .error .indexOutOfRange := rfl

theorem respond_ok {items : List Item} {r : GetItemsResponse} (h : respond items = .ok r) :
    r.Items = items ∧ ∃ last, items.getLast? = some last ∧ r.Token = some last.ID := by
  unfold respond lastItem at h
  cases hl : items.getLast? with
  | none => simp [hl] at h
  | some last =>
    simp only [hl] at h
    injection h with h
    subst h
    exact ⟨rfl, last, rfl, rfl⟩

theorem respond_ne_nil {items : List Item} (h : items ≠ []) :
    ∃ last, items.getLast? = some last ∧
      respond items = .ok { Items := items, Token := some last.ID } := by
  cases hl : items.getLast? with
  | none => exact absurd (List.getLast?_eq_none_iff.mp hl) h
  | some last => exact ⟨last, rfl, by simp [respond, lastItem, hl]⟩

theorem applyLimit_length_le (n : Int) (hn : 0 < n) (l : List Document) :
    ((applyLimit (some n) l).length : Int) ≤ n := by
  have h0 : n ≠ 0 := by omega
  simp only [applyLimit, h0, if_false, List.length_take]
  omega

theorem effectivePageSize_pos (req : GetItemsRequest) : 0 < effectivePageSize req := by
  unfold effectivePageSize
  split <;> omega

theorem matches_getFilter (req : GetItemsRequest) (d : Document) :
    d.matches (getFilter req) =
      match req.Token with
      | none => true
      | some t => decide (strLt t d._id) := by
  cases h : req.Token <;>
    simp [getFilter, withToken, h, Document.matches, setKey, Document.get, Cond.holds]

theorem matches_getUserItemsFilter (u : String) (req : GetItemsRequest) (d : Document) :
    d.matches (getUserItemsFilter u req) =
      (decide (d.get "owner_id" = some u) && d.matches (getFilter req)) := by
  have ho : Cond.holds (Cond.eq u) (d.get "owner_id") = decide (d.get "owner_id" = some u) := by
    cases d.get "owner_id" <;> simp [Cond.holds]
  cases h : req.Token <;>
    simp [getUserItemsFilter, getFilter, withToken, h, Document.matches, setKey, ho]

/-! ## The ascending sort -/

theorem sortAsc_perm (l : List Document) : (sortAsc l).Perm l :=
  List.perm_insertionSort _ l

theorem sortAsc_sorted (l : List Document) :
    (sortAsc l).Pairwise (fun a b => strLe a._id b._id) :=
  List.sorted_insertionSort _ l

theorem nodup_ids_iff (l : List Document) :
    (l.map (·._id)).Nodup ↔ l.Pairwise (fun a b => a._id ≠ b._id) := by
  simp [List.Nodup, List.pairwise_map]

theorem sortAsc_nodup {l : List Document} (h : (l.map (·._id)).Nodup) :
    ((sortAsc l).map (·._id)).Nodup :=
  (((sortAsc_perm l).map _).nodup_iff).mpr h

theorem sortAsc_strict {l : List Document} (h : (l.map (·._id)).Nodup) :
    (sortAsc l).Pairwise (fun a b => a._id < b._id) := by
  have h1 := sortAsc_sorted l
  have h2 := (nodup_ids_iff _).mp (sortAsc_nodup h)
  refine (h1.and h2).imp ?_
  intro a b hab
  exact lt_of_le_of_ne ((strLe_iff _ _).mp hab.1) hab.2

theorem filter_nodup_ids {l : List Document} (p : Document → Bool)
    (h : (l.map (·._id)).Nodup) : ((l.filter p).map (·._id)).Nodup :=
  h.sublist ((List.filter_sublist l).map _)

theorem find_page_strict {c : Collection} (h : (c.map (·._id)).Nodup) (f : Filter)
    (limit : Option Int) :
    (find c f { sortById := true, limit := limit }).Pairwise (fun a b => a._id < b._id) := by
  have hs := sortAsc_strict (filter_nodup_ids (Document.matches f) h)
  simp only [find, applyLimit, if_true]
  cases limit with
  | none => exact hs
  | some n =>
    simp only
    split
    · exact hs
    · exact hs.sublist (List.take_sublist _ _)

/-! ## Paginated reads -/

theorem find_nil_of_no_match {c : Collection} {f : Filter} (o : FindOptions)
    (h : ∀ d ∈ c, d.matches f = false) : find c f o = [] := by
  have hf : c.filter (Document.matches f) = [] := by
    rw [List.filter_eq_nil_iff]
    intro d hd
    simp [h d hd]
  simp only [find, hf, sortAsc, List.insertionSort, ite_self, applyLimit]
  cases o.limit with
  | none => rfl
  | some n => simp

theorem find_userItems (c : Collection) (u : String) (req : GetItemsRequest)
    (o : FindOptions) :
    find c (getUserItemsFilter u req) o =
      find (c.filter (fun d => decide (d.get "owner_id" = some u))) (getFilter req) o := by
  have hf : c.filter (Document.matches (getUserItemsFilter u req)) =
      (c.filter (fun d => decide (d.get "owner_id" = some u))).filter
        (Document.matches (getFilter req)) := by
    rw [List.filter_filter]
    congr 1
    funext d
    rw [matches_getUserItemsFilter, Bool.and_comm]
  simp only [find, hf]

theorem find_page_length (c : Collection) (f : Filter) (req : GetItemsRequest) :
    ((find c f (pageOptions req)).length : Int) ≤ effectivePageSize req := by
  simp only [find, pageOptions]
  exact applyLimit_length_le _ (effectivePageSize_pos req) _

theorem find_page_eq (c : Collection) (f : Filter) (req : GetItemsRequest) :
    find c f (pageOptions req) =
      (sortAsc (c.filter (Document.matches f))).take (effectivePageSize req).toNat := by
  have hp := effectivePageSize_pos req
  have h0 : effectivePageSize req ≠ 0 := by omega
  have hn : (effectivePageSize req).natAbs = (effectivePageSize req).toNat := by omega
  simp [find, pageOptions, applyLimit, h0, hn]

/-- C1: whenever no stored document matches the filter of the request, `Get`
and `GetUserItems` do not return an empty page: both end in the run-time
panic of the index expression that reads the last element. -/
theorem empty_page_panics (c : Collection) (u : String) (req : GetItemsRequest) :
    ((∀ d ∈ c, d.matches (getFilter req) = false) →
        Get c req = .error .indexOutOfRange) ∧
    ((∀ d ∈ c, d.matches (getUserItemsFilter u req) = false) →
        GetUserItems c u req = .error .indexOutOfRange) := by
  constructor
  · intro h
    simp [Get, find_nil_of_no_match _ h, respond_nil]
  · intro h
    simp [GetUserItems, find_nil_of_no_match _ h, respond_nil]

/-- C3: a successful `Get` or `GetUserItems` with a non-empty `Items` returns
as token the `ID` of the last element of `Items`. -/
theorem token_is_last_id (c : Collection) (u : String) (req : GetItemsRequest)
    (r : GetItemsResponse)
    (h : Get c req = .ok r ∨ GetUserItems c u req = .ok r) (hne : r.Items ≠ []) :
    ∃ last, r.Items.getLast? = some last ∧ r.Token = some last.ID := by
  have key : ∀ items, respond items = .ok r →
      ∃ last, r.Items.getLast? = some last ∧ r.Token = some last.ID := by
    intro items hr
    obtain ⟨h1, last, h2, h3⟩ := respond_ok hr
    exact ⟨last, by rw [h1]; exact h2, h3⟩
  have _ := hne
  rcases h with h | h
  · exact key _ h
  · exact key _ h

/-- C4: `Get` and `GetUserItems` query the store with limit 10 when `PageSize`
is below 1 and with limit `PageSize` otherwise; a request with `PageSize`
below 1 gives what the same request with `PageSize` 10 gives, and a returned
`Items` is never longer than that limit. -/
theorem page_size_clamped (c : Collection) (u : String) (req : GetItemsRequest) :
    Get c req = respond ((find c (getFilter req)
        { sortById := true,
          limit := some (if req.PageSize < 1 then 10 else req.PageSize) }).map decode) ∧
    GetUserItems c u req = respond ((find c (getUserItemsFilter u req)
        { sortById := true,
          limit := some (if req.PageSize < 1 then 10 else req.PageSize) }).map decode) ∧
    (req.PageSize < 1 →
      Get c req = Get c { req with PageSize := 10 } ∧
      GetUserItems c u req = GetUserItems c u { req with PageSize := 10 }) ∧
    (∀ r, Get c req = .ok r ∨ GetUserItems c u req = .ok r →
      (r.Items.length : Int) ≤ (if req.PageSize < 1 then 10 else req.PageSize)) := by
  refine ⟨rfl, rfl, ?_, ?_⟩
  · intro h
    have e1 : pageOptions req = pageOptions { req with PageSize := 10 } := by
      simp [pageOptions, effectivePageSize, h]
    have e2 : getFilter req = getFilter { req with PageSize := 10 } := rfl
    have e3 : getUserItemsFilter u req = getUserItemsFilter u { req with PageSize := 10 } := rfl
    simp only [Get, GetUserItems, e1, e2, e3, and_self]
  · intro r h
    have key : ∀ f, respond ((find c f (pageOptions req)).map decode) = .ok r →
        (r.Items.length : Int) ≤ effectivePageSize req := by
      intro f hr
      rw [(respond_ok hr).1, List.length_map]
      exact find_page_length c f req
    rcases h with h | h
    · exact key _ h
    · exact key _ h

/-- C5: on a collection with pairwise distinct IDs the `Items` of `Get` and of
`GetUserItems` are strictly ascending by `ID`. -/
theorem items_strictly_ascending (c : Collection) (u : String) (req : GetItemsRequest)
    (r : GetItemsResponse) (hc : (c.map (·._id)).Nodup)
    (h : Get c req = .ok r ∨ GetUserItems c u req = .ok r) :
    r.Items.Pairwise (fun a b => a.ID < b.ID) := by
  have key : ∀ f, respond ((find c f (pageOptions req)).map decode) = .ok r →
      r.Items.Pairwise (fun a b => a.ID < b.ID) := by
    intro f hr
    rw [(respond_ok hr).1, List.pairwise_map]
    exact find_page_strict hc f _
  rcases h with h | h
  · exact key _ h
  · exact key _ h

theorem mem_find_page {c : Collection} {f : Filter} {req : GetItemsRequest} {d : Document}
    (h : d ∈ find c f (pageOptions req)) : d ∈ c ∧ d.matches f = true := by
  rw [find_page_eq] at h
  have h1 := (sortAsc_perm _).subset (List.mem_of_mem_take h)
  exact List.mem_filter.mp h1

/-- C6: `GetUserItems` returns what `Get` returns for the same request on the
collection restricted to the documents whose `owner_id` is the owner; every
returned item has that owner and, with a token, an `ID` above the token; and
`Items` are the first page-size documents, in ascending `_id`, of all that
satisfy both conditions. -/
theorem getUserItems_is_get_on_owner (c : Collection) (u : String) (req : GetItemsRequest) :
    GetUserItems c u req =
      Get (c.filter (fun d => decide (d.get "owner_id" = some u))) req ∧
    (∀ r, GetUserItems c u req = .ok r →
      (∀ i ∈ r.Items, i.OwnerID = u ∧ ∀ t, req.Token = some t → t < i.ID) ∧
      r.Items = ((sortAsc (c.filter (fun d =>
          decide (d.get "owner_id" = some u) &&
            (match req.Token with
              | none => true
              | some t => decide (t < d._id)))) ).take
          (effectivePageSize req).toNat).map decode) := by
  constructor
  · simp only [GetUserItems, Get, find_userItems]
  · intro r hr
    have hI := (respond_ok hr).1
    constructor
    · intro i hi
      rw [hI] at hi
      obtain ⟨d, hd, rfl⟩ := List.mem_map.mp hi
      have hm := (mem_find_page hd).2
      rw [matches_getUserItemsFilter, Bool.and_eq_true, matches_getFilter] at hm
      obtain ⟨ho, ht⟩ := hm
      have ho' : d.get "owner_id" = some u := of_decide_eq_true ho
      refine ⟨by simp [decode, ho'], ?_⟩
      intro t htok
      rw [htok] at ht
      exact (strLt_iff _ _).mp (of_decide_eq_true ht)
    · have hfun : Document.matches (getUserItemsFilter u req) = fun d =>
          decide (d.get "owner_id" = some u) &&
            (match req.Token with
              | none => true
              | some t => decide (t < d._id)) := by
        funext d
        rw [matches_getUserItemsFilter, matches_getFilter]
        cases req.Token with
        | none => rfl
        | some t => simp only [strLt_iff]
      rw [hI, find_page_eq, hfun]

/-- C7: `GetByIDs` with a nil slice of ids fails, since the `$in` operand
reaches the store as null; with any slice that is not nil it succeeds and
returns the stored documents whose `_id` occurs in the slice, each once and
in store order, so that an empty slice, and a slice none of whose ids is
stored, give the empty result. -/
theorem getByIDs_nil_fails_else_membership (c : Collection) (ids : List String) :
    GetByIDs c Slice.nil = .error .badValue ∧
    GetByIDs c (Slice.elems ids) =
      .ok ((c.filter (fun d => decide (d._id ∈ ids))).map decode) ∧
    GetByIDs c (Slice.elems []) = .ok [] ∧
    ((∀ id ∈ ids, id ∉ c.map (·._id)) → GetByIDs c (Slice.elems ids) = .ok []) := by
  have main : ∀ l : List String,
      GetByIDs c (Slice.elems l) =
        .ok ((c.filter (fun d => decide (d._id ∈ l))).map decode) := by
    intro l
    have hfun : Document.matches [("_id", Cond.isIn l)] = fun d => decide (d._id ∈ l) := by
      funext d
      simp [Document.matches, Document.get, Cond.holds]
    simp [GetByIDs, inFilter, Slice.bson, find, applyLimit, hfun]
  refine ⟨rfl, main ids, ?_, ?_⟩
  · rw [main]
    simp
  · intro h
    rw [main]
    have : c.filter (fun d => decide (d._id ∈ ids)) = [] := by
      rw [List.filter_eq_nil_iff]
      intro d hd
      simp only [decide_eq_true_eq]
      intro hin
      exact h _ hin (List.mem_map.mpr ⟨d, hd, rfl⟩)
    rw [this]
    rfl

/-- C10: `GetByID` gives the same outcome for any two owner arguments, and a
stored document is returned under its `_id` whatever the owner argument is. -/
theorem getByID_ignores_owner (c : Collection) (id u1 u2 : String) :
    GetByID c u1 id = GetByID c u2 id ∧
    (∀ d ∈ c, d._id = id → (c.map (·._id)).Nodup → GetByID c u1 id = .ok (decode d)) := by
  refine ⟨rfl, ?_⟩
  intro d hd hid hnd
  have hm : ∀ x : Document, x.matches [("_id", Cond.eq id)] = decide (x._id = id) := by
    intro x
    simp [Document.matches, Document.get, Cond.holds]
  have hfind : c.find? (Document.matches [("_id", Cond.eq id)]) = some d := by
    induction c with
    | nil => simp at hd
    | cons x r ih =>
      simp only [List.map_cons, List.nodup_cons] at hnd
      rcases List.mem_cons.mp hd with rfl | hr
      · simp [List.find?, hm, hid]
      · have hx : x._id ≠ id := by
          intro hx
          apply hnd.1
          rw [hx, ← hid]
          exact List.mem_map.mpr ⟨d, hr, rfl⟩
        simp only [List.find?, hm, hx, decide_False]
        exact ih hr hnd.2
  simp [GetByID, findOne, hfind]

/-! ## The bulk upsert -/

theorem updateOne_itemModel (i : Item) (c : Collection) :
    updateOne (itemModel i) c = .ok (upsertItem i c) := by
  have hm : ∀ x : Document, x.matches [("_id", Cond.eq i.ID)] = decide (x._id = i.ID) := by
    intro x
    simp [Document.matches, Document.get, Cond.holds]
  induction c with
  | nil => simp [updateOne, upsertItem, itemModel, seed, encode, applySet, Document.set, setKey]
  | cons d r ih =>
    simp only [itemModel] at ih
    by_cases h : d._id = i.ID
    · simp [updateOne, upsertItem, hm, h, itemModel, encode, applySet, Document.set]
    · simp [updateOne, upsertItem, hm, h, itemModel, ih]

theorem runModels_itemModel (items : List Item) (c : Collection) :
    runModels (items.map itemModel) c = (items.foldl (fun s i => upsertItem i s) c, none) := by
  induction items generalizing c with
  | nil => rfl
  | cons i r ih => simp [runModels, updateOne_itemModel, ih]

theorem updateBulk_eq (c : Collection) (items : List Item) :
    UpdateBulk c items =
      if items = [] then (c, some .errEmptySlice)
      else (items.foldl (fun s i => upsertItem i s) c, none) := by
  simp [UpdateBulk, bulkWrite, runModels_itemModel]

theorem setKey_setKey_same {β : Type} (k : String) (v w : β) (l : List (String × β)) :
    setKey k w (setKey k v l) = setKey k w l := by
  induction l with
  | nil => simp [setKey]
  | cons p r ih =>
    obtain ⟨k', x⟩ := p
    by_cases h : k' = k
    · simp [setKey, h]
    · simp [setKey, h, ih]

theorem setKey_pair_absorb {β : Type} (a b : String) (hab : a ≠ b) (x y x' y' : β)
    (l : List (String × β)) :
    setKey b y' (setKey a x' (setKey b y (setKey a x l))) = setKey b y' (setKey a x' l) := by
  induction l with
  | nil => simp [setKey, hab]
  | cons p r ih =>
    obtain ⟨k, z⟩ := p
    by_cases ha : k = a
    · subst ha
      simp [setKey, hab, setKey_setKey_same]
    · by_cases hb : k = b
      · subst hb
        simp [setKey, ha, setKey_setKey_same]
      · simp [setKey, ha, hb, ih]

theorem lookup_setKey (k k' v : String) (l : List (String × String)) :
    (setKey k v l).lookup k' = if k' = k then some v else l.lookup k' := by
  induction l with
  | nil =>
    by_cases h : k' = k
    · simp [setKey, List.lookup, h]
    · have hb : (k' == k) = false := beq_eq_false_iff_ne.mpr h
      simp [setKey, List.lookup, h, hb]
  | cons p r ih =>
    obtain ⟨k0, x⟩ := p
    by_cases h0 : k0 = k
    · subst h0
      by_cases h : k' = k0
      · simp [setKey, List.lookup, h]
      · have hb : (k' == k0) = false := beq_eq_false_iff_ne.mpr h
        simp [setKey, List.lookup, h, hb]
    · by_cases h : k' = k0
      · subst h
        simp [setKey, List.lookup, h0]
      · have hb : (k' == k0) = false := beq_eq_false_iff_ne.mpr h
        simp [setKey, List.lookup, h0, h, hb, ih]

theorem upsertItem_ids (i : Item) (c : Collection) :
    (upsertItem i c).map (·._id) =
      c.map (·._id) ++ (if i.ID ∈ c.map (·._id) then [] else [i.ID]) := by
  induction c with
  | nil => simp [upsertItem]
  | cons d r ih =>
    by_cases h : d._id = i.ID
    · simp [upsertItem, h]
    · have h' : ¬ i.ID = d._id := fun e => h e.symm
      simp only [upsertItem, h, if_false, List.map_cons, ih, List.mem_cons, h', false_or,
        List.cons_append]

theorem mem_ids_upsertItem {i : Item} {c : Collection} {x : String}
    (h : x ∈ c.map (·._id)) : x ∈ (upsertItem i c).map (·._id) := by
  rw [upsertItem_ids]
  exact List.mem_append_left _ h

theorem self_mem_ids_upsertItem (i : Item) (c : Collection) :
    i.ID ∈ (upsertItem i c).map (·._id) := by
  rw [upsertItem_ids]
  by_cases h : i.ID ∈ c.map (·._id)
  · exact List.mem_append_left _ h
  · simp [h]

theorem upsertItem_absorb (i j : Item) (h : i.ID = j.ID) (c : Collection) :
    upsertItem j (upsertItem i c) = upsertItem j c := by
  induction c with
  | nil => simp [upsertItem, h, setKey]
  | cons d r ih =>
    obtain ⟨id, fs⟩ := d
    by_cases hd : id = i.ID
    · have hd' : id = j.ID := hd.trans h
      subst hd
      simp only [upsertItem, if_true, hd']
      rw [setKey_pair_absorb "owner_id" "name" (by decide)]
    · have hd' : ¬ id = j.ID := fun e => hd (e.trans h.symm)
      simp only [upsertItem, hd, hd', if_false, ih]

theorem upsertItem_comm (i j : Item) (h : i.ID ≠ j.ID) (c : Collection)
    (hp : i.ID ∈ c.map (·._id) ∨ j.ID ∈ c.map (·._id)) :
    upsertItem i (upsertItem j c) = upsertItem j (upsertItem i c) := by
  induction c with
  | nil => simp at hp
  | cons d r ih =>
    by_cases hi : d._id = i.ID
    · have hj : ¬ d._id = j.ID := fun e => h (hi.symm.trans e)
      simp [upsertItem, hi, hj, h]
    · by_cases hj : d._id = j.ID
      · have h' : ¬ j.ID = i.ID := fun e => h e.symm
        simp [upsertItem, hi, hj, h']
      · have hp' : i.ID ∈ r.map (·._id) ∨ j.ID ∈ r.map (·._id) := by
          rcases hp with hp | hp
          · left
            rcases List.mem_cons.mp hp with e | e
            · exact absurd e.symm hi
            · exact e
          · right
            rcases List.mem_cons.mp hp with e | e
            · exact absurd e.symm hj
            · exact e
        simp only [upsertItem, hi, hj, if_false, ih hp']

/-- All items of a list upserted one after the other. -/
theorem upsertAll_append (l1 l2 : List Item) (c : Collection) :
    (l1 ++ l2).foldl (fun s i => upsertItem i s) c =
      l2.foldl (fun s i => upsertItem i s) (l1.foldl (fun s i => upsertItem i s) c) :=
  List.foldl_append _ _ _ _

theorem mem_ids_upsertAll {l : List Item} {c : Collection} {x : String}
    (h : x ∈ c.map (·._id)) : x ∈ (l.foldl (fun s i => upsertItem i s) c).map (·._id) := by
  induction l generalizing c with
  | nil => exact h
  | cons i r ih =>
    simp only [List.foldl_cons]
    exact ih (mem_ids_upsertItem h)

theorem item_mem_ids_upsertAll {l : List Item} {c : Collection} {i : Item} (hi : i ∈ l) :
    i.ID ∈ (l.foldl (fun s i => upsertItem i s) c).map (·._id) := by
  induction l generalizing c with
  | nil => simp at hi
  | cons j r ih =>
    simp only [List.foldl_cons]
    rcases List.mem_cons.mp hi with rfl | h
    · exact mem_ids_upsertAll (self_mem_ids_upsertItem _ _)
    · exact ih h

theorem upsertAll_after_upsert (l : List Item) (j : Item) (d : Collection)
    (hl : ∀ i ∈ l, i.ID ∈ d.map (·._id)) :
    l.foldl (fun s i => upsertItem i s) (upsertItem j d) =
      if j.ID ∈ l.map (·.ID) then l.foldl (fun s i => upsertItem i s) d
      else upsertItem j (l.foldl (fun s i => upsertItem i s) d) := by
  induction l generalizing d with
  | nil => simp
  | cons i r ih =>
    have hr : ∀ x ∈ r, x.ID ∈ (upsertItem i d).map (·._id) :=
      fun x hx => mem_ids_upsertItem (hl x (List.mem_cons_of_mem _ hx))
    by_cases hij : j.ID = i.ID
    · simp only [List.foldl_cons, List.map_cons, List.mem_cons, hij, true_or, if_true]
      rw [upsertItem_absorb j i hij]
    · have hij' : i.ID ≠ j.ID := fun e => hij e.symm
      simp only [List.foldl_cons, List.map_cons, List.mem_cons, hij, false_or]
      rw [upsertItem_comm i j hij' d (Or.inl (hl i (List.mem_cons_self _ _))), ih _ hr]

theorem upsertAll_idem (l : List Item) (c : Collection) :
    l.foldl (fun s i => upsertItem i s) (l.foldl (fun s i => upsertItem i s) c) =
      l.foldl (fun s i => upsertItem i s) c := by
  induction l using List.reverseRecOn generalizing c with
  | nil => rfl
  | append_singleton l0 j ih =>
    simp only [upsertAll_append, List.foldl_cons, List.foldl_nil]
    rw [upsertAll_after_upsert l0 j _ (fun i hi => item_mem_ids_upsertAll hi), ih]
    split
    · rfl
    · rw [upsertItem_absorb j j rfl]

/-- C8: `UpdateBulk` with the same items a second time leaves the collection
the first call produced as it is, and returns what the first call returned. -/
theorem updateBulk_idempotent (c : Collection) (items : List Item) :
    UpdateBulk (UpdateBulk c items).1 items = UpdateBulk c items := by
  rw [updateBulk_eq c items]
  by_cases h : items = []
  · subst h
    simp [updateBulk_eq]
  · simp only [h, if_false, updateBulk_eq, upsertAll_idem]

theorem mem_upsertItem_of_ne (i : Item) (c : Collection) (d : Document) (h : d._id ≠ i.ID) :
    d ∈ upsertItem i c ↔ d ∈ c := by
  induction c with
  | nil =>
    simp only [upsertItem, List.mem_singleton, List.not_mem_nil, iff_false]
    intro e
    exact h (by rw [e])
  | cons x r ih =>
    by_cases hx : x._id = i.ID
    · simp only [upsertItem, hx, if_true, List.mem_cons]
      constructor
      · rintro (e | e)
        · exact absurd (by rw [e]) h
        · exact Or.inr e
      · rintro (e | e)
        · exact absurd (by rw [e, hx]) h
        · exact Or.inr e
    · simp only [upsertItem, hx, if_false, List.mem_cons, ih]

theorem upsertItem_nodup (i : Item) {c : Collection} (h : (c.map (·._id)).Nodup) :
    ((upsertItem i c).map (·._id)).Nodup := by
  rw [upsertItem_ids]
  by_cases hi : i.ID ∈ c.map (·._id)
  · simpa [hi] using h
  · simp only [hi, if_false]
    exact List.Nodup.append h (List.nodup_singleton _) (by simpa using hi)

theorem upsertItem_stored (i : Item) {c : Collection} (h : (c.map (·._id)).Nodup) :
    ∃ d ∈ upsertItem i c, d._id = i.ID ∧
      d.get "owner_id" = some i.OwnerID ∧ d.get "name" = some i.Name ∧
      (∀ d0 ∈ c, d0._id = i.ID → ∀ k, k ≠ "owner_id" → k ≠ "name" → d.get k = d0.get k) ∧
      ((∀ d0 ∈ c, d0._id ≠ i.ID) →
        d = { _id := i.ID, fields := [("owner_id", i.OwnerID), ("name", i.Name)] }) := by
  induction c with
  | nil =>
    refine ⟨_, List.mem_singleton.mpr rfl, rfl, ?_, ?_, ?_, fun _ => rfl⟩
    · simp [Document.get, List.lookup]
    · simp [Document.get, List.lookup]
    · intro d0 hd0
      simp at hd0
  | cons x r ih =>
    simp only [List.map_cons, List.nodup_cons] at h
    by_cases hx : x._id = i.ID
    · obtain ⟨id, fs⟩ := x
      simp only at hx
      subst hx
      refine ⟨{ _id := i.ID, fields := setKey "name" i.Name (setKey "owner_id" i.OwnerID fs) },
        ?_, rfl, ?_, ?_, ?_, ?_⟩
      · simp only [upsertItem, if_true]
        exact List.mem_cons_self _ _
      · simp [Document.get, lookup_setKey]
      · simp [Document.get, lookup_setKey]
      · intro d0 hd0 hid k hk1 hk2
        have hd0x : d0 = { _id := i.ID, fields := fs } := by
          rcases List.mem_cons.mp hd0 with e | e
          · exact e
          · exfalso
            apply h.1
            exact List.mem_map.mpr ⟨d0, e, hid⟩
        subst hd0x
        simp [Document.get, lookup_setKey, hk1, hk2]
      · intro hall
        exact absurd rfl (hall _ (List.mem_cons_self _ _))
    · obtain ⟨d, hd, h1, h2, h3, h4, h5⟩ := ih h.2
      refine ⟨d, by simp only [upsertItem, hx, if_false]; exact List.mem_cons_of_mem _ hd,
        h1, h2, h3, ?_, ?_⟩
      · intro d0 hd0 hid
        rcases List.mem_cons.mp hd0 with e | e
        · exact absurd (by rw [← e, hid]) hx
        · exact h4 d0 e hid
      · intro hall
        exact h5 (fun d0 hd0 => hall d0 (List.mem_cons_of_mem _ hd0))

theorem upsertAll_stored (l : List Item) (c : Collection)
    (hc : (c.map (·._id)).Nodup) (hl : (l.map (·.ID)).Nodup) :
    ((l.foldl (fun s i => upsertItem i s) c).map (·._id)).Nodup ∧
    (∀ d : Document, d._id ∉ l.map (·.ID) →
      (d ∈ l.foldl (fun s i => upsertItem i s) c ↔ d ∈ c)) ∧
    (∀ i ∈ l, ∃ d ∈ l.foldl (fun s i => upsertItem i s) c, d._id = i.ID ∧
      d.get "owner_id" = some i.OwnerID ∧ d.get "name" = some i.Name ∧
      (∀ d0 ∈ c, d0._id = i.ID → ∀ k, k ≠ "owner_id" → k ≠ "name" → d.get k = d0.get k) ∧
      ((∀ d0 ∈ c, d0._id ≠ i.ID) →
        d = { _id := i.ID, fields := [("owner_id", i.OwnerID), ("name", i.Name)] })) := by
  induction l generalizing c with
  | nil =>
    refine ⟨hc, fun _ _ => Iff.rfl, ?_⟩
    intro i hi
    simp at hi
  | cons j r ih =>
    simp only [List.map_cons, List.nodup_cons] at hl
    obtain ⟨ihN, ihB, ihS⟩ := ih (upsertItem j c) (upsertItem_nodup j hc) hl.2
    simp only [List.foldl_cons]
    refine ⟨ihN, ?_, ?_⟩
    · intro d hd
      simp only [List.map_cons, List.mem_cons, not_or] at hd
      rw [ihB d hd.2, mem_upsertItem_of_ne j c d hd.1]
    · intro i hi
      rcases List.mem_cons.mp hi with rfl | hir
      · obtain ⟨d, hd, h1, h2, h3, h4, h5⟩ := upsertItem_stored i hc
        refine ⟨d, ?_, h1, h2, h3, h4, h5⟩
        rw [ihB d (by rw [h1]; exact hl.1)]
        exact hd
      · have hne : i.ID ≠ j.ID := by
          intro e
          apply hl.1
          rw [← e]
          exact List.mem_map.mpr ⟨i, hir, rfl⟩
        obtain ⟨d, hd, h1, h2, h3, h4, h5⟩ := ihS i hir
        refine ⟨d, hd, h1, h2, h3, ?_, ?_⟩
        · intro d0 hd0 hid
          refine h4 d0 ?_ hid
          rw [mem_upsertItem_of_ne j c d0 (by rw [hid]; exact hne)]
          exact hd0
        · intro hall
          apply h5
          intro d0 hd0
          by_cases e : d0._id = j.ID
          · rw [e]
            exact fun e' => hne e'.symm
          · exact hall d0 ((mem_upsertItem_of_ne j c d0 e).mp hd0)

theorem updateBulk_ok {c : Collection} {items : List Item}
    (h : (UpdateBulk c items).2 = none) :
    (UpdateBulk c items).1 = items.foldl (fun s i => upsertItem i s) c := by
  rw [updateBulk_eq] at h ⊢
  by_cases he : items = []
  · simp [he] at h
  · simp [he]

/-- C9, as the code has it: after a successful `UpdateBulk` of items with
distinct IDs on a collection with distinct `_id`s, each item has one document
under its ID whose `owner_id` and `name` are the item's; a document that
existed keeps every other field it had, and a document that did not exist
consists of the item's fields only; documents whose `_id` is not among the
items are as they were. -/
theorem updateBulk_sets_item_fields (c : Collection) (items : List Item)
    (hc : (c.map (·._id)).Nodup) (hi : (items.map (·.ID)).Nodup)
    (hok : (UpdateBulk c items).2 = none) :
    (((UpdateBulk c items).1).map (·._id)).Nodup ∧
    (∀ d : Document, d._id ∉ items.map (·.ID) → (d ∈ (UpdateBulk c items).1 ↔ d ∈ c)) ∧
    (∀ i ∈ items, ∃ d ∈ (UpdateBulk c items).1, d._id = i.ID ∧ decode d = i ∧
      (∀ d0 ∈ c, d0._id = i.ID → ∀ k, k ≠ "owner_id" → k ≠ "name" → d.get k = d0.get k) ∧
      ((∀ d0 ∈ c, d0._id ≠ i.ID) →
        d = { _id := i.ID, fields := [("owner_id", i.OwnerID), ("name", i.Name)] })) := by
  rw [updateBulk_ok hok]
  obtain ⟨hN, hB, hS⟩ := upsertAll_stored items c hc hi
  refine ⟨hN, hB, ?_⟩
  intro i hmem
  obtain ⟨d, hd, h1, h2, h3, h4, h5⟩ := hS i hmem
  refine ⟨d, hd, h1, ?_, h4, h5⟩
  simp [decode, h1, h2, h3]

/-- C9, refuted as stated: `UpdateBulk` of the item with ID "a" on `stocked`
succeeds, and the document stored under "a" afterwards still has the field
`color` of the previous document, a field the item does not have. -/
theorem updateBulk_merges_not_replaces :
    (stocked.map (·._id)).Nodup ∧
    (UpdateBulk stocked [{ ID := "a", OwnerID := "v", Name := "m" }]).2 = none ∧
    (UpdateBulk stocked [{ ID := "a", OwnerID := "v", Name := "m" }]).1 =
      [{ _id := "a", fields := [("owner_id", "v"), ("name", "m"), ("color", "red")] }] ∧
    (encode { ID := "a", OwnerID := "v", Name := "m" }).lookup "color" = none ∧
    ¬ (∀ d ∈ (UpdateBulk stocked [{ ID := "a", OwnerID := "v", Name := "m" }]).1,
        d._id = "a" →
        ∀ k, d.get k = (encode { ID := "a", OwnerID := "v", Name := "m" }).lookup k) := by
  refine ⟨by decide, by decide, by decide, by decide, ?_⟩
  intro h
  have h1 := h { _id := "a", fields := [("owner_id", "v"), ("name", "m"), ("color", "red")] }
    (by decide) rfl "color"
  revert h1
  decide

/-! ## The pagination protocol -/

theorem find_page_of_split {c : Collection} (hc : (c.map (·._id)).Nodup)
    (req : GetItemsRequest) (pre rest : List Document) (hs : pre ++ rest = sortAsc c)
    (hpre : ∀ d ∈ pre, d.matches (getFilter req) = false)
    (hrest : ∀ d ∈ rest, d.matches (getFilter req) = true) :
    find c (getFilter req) (pageOptions req) = rest.take (effectivePageSize req).toNat := by
  rw [find_page_eq]
  congr 1
  have hstrict := sortAsc_strict hc
  rw [← hs] at hstrict
  have hrs : rest.Pairwise (fun a b => a._id < b._id) := (List.pairwise_append.mp hstrict).2.1
  have hls := sortAsc_strict (filter_nodup_ids (Document.matches (getFilter req)) hc)
  have hperm : (sortAsc (c.filter (Document.matches (getFilter req)))).Perm rest := by
    refine (sortAsc_perm _).trans ?_
    refine ((sortAsc_perm c).symm.filter _).trans ?_
    rw [← hs, List.filter_append]
    have e1 : pre.filter (Document.matches (getFilter req)) = [] := by
      rw [List.filter_eq_nil_iff]
      intro d hd
      simp [hpre d hd]
    have e2 : rest.filter (Document.matches (getFilter req)) = rest := by
      rw [List.filter_eq_self]
      exact hrest
    rw [e1, e2, List.nil_append]
  exact List.eq_of_perm_of_sorted hperm hls hrs

theorem paginate_of_split {c : Collection} (hc : (c.map (·._id)).Nodup) (pageSize : Int)
    (fuel : Nat) (token : Option String) (pre rest : List Document)
    (hs : pre ++ rest = sortAsc c)
    (hpre : ∀ d ∈ pre, d.matches (getFilter { PageSize := pageSize, Token := token }) = false)
    (hrest : ∀ d ∈ rest, d.matches (getFilter { PageSize := pageSize, Token := token }) = true)
    (hfuel : rest.length < fuel) :
    paginate c pageSize fuel token = (rest.map decode, Stop.failed .indexOutOfRange) := by
  induction fuel generalizing token pre rest with
  | zero => omega
  | succ fuel ih =>
    have hfind := find_page_of_split hc _ pre rest hs hpre hrest
    have hpos := effectivePageSize_pos { PageSize := pageSize, Token := token }
    generalize hn : (effectivePageSize { PageSize := pageSize, Token := token }).toNat = n
      at hfind
    have hn1 : 1 ≤ n := by omega
    cases rest with
    | nil => simp [paginate, Get, hfind, respond_nil]
    | cons x xs =>
      have hne : ((x :: xs).take n).map decode ≠ [] := by
        obtain ⟨m, rfl⟩ : ∃ m, n = m + 1 := ⟨n - 1, by omega⟩
        simp
      obtain ⟨last, hlast, hresp⟩ := respond_ne_nil hne
      have hget : Get c { PageSize := pageSize, Token := token } =
          .ok { Items := ((x :: xs).take n).map decode, Token := some last.ID } := by
        rw [Get, hfind, hresp]
      rw [List.getLast?_map] at hlast
      obtain ⟨ld, hld, hdec⟩ := Option.map_eq_some'.mp hlast
      have hldmem : ld ∈ (x :: xs).take n := List.mem_of_getLast?_eq_some hld
      have hstrict := sortAsc_strict hc
      rw [← hs] at hstrict
      obtain ⟨_, hrs, hcross⟩ := List.pairwise_append.mp hstrict
      rw [← List.take_append_drop n (x :: xs)] at hrs
      obtain ⟨htk, _, htd⟩ := List.pairwise_append.mp hrs
      have hid : last.ID = ld._id := by rw [← hdec]; rfl
      have hle : ∀ d ∈ (x :: xs).take n, d._id ≤ ld._id := by
        intro d hd
        obtain ⟨ini, hini⟩ : ∃ ini, (x :: xs).take n = ini ++ [ld] := by
          have hne' : (x :: xs).take n ≠ [] := fun e => hne (by rw [e]; rfl)
          refine ⟨((x :: xs).take n).dropLast, ?_⟩
          have := List.dropLast_append_getLast hne'
          rw [List.getLast?_eq_getLast _ hne'] at hld
          injection hld with hld
          rw [hld] at this
          exact this.symm
        rw [hini] at hd htk
        rcases List.mem_append.mp hd with h | h
        · exact le_of_lt ((List.pairwise_append.mp htk).2.2 d h ld (List.mem_singleton.mpr rfl))
        · rw [List.mem_singleton.mp h]
      have hstep := ih (some last.ID) (pre ++ (x :: xs).take n) ((x :: xs).drop n)
        (by rw [List.append_assoc, List.take_append_drop]; exact hs)
        (by
          intro d hd
          rw [matches_getFilter]
          simp only [decide_eq_false_iff_not, strLt_iff, hid, not_lt]
          rcases List.mem_append.mp hd with h | h
          · exact le_of_lt (hcross d h ld (List.mem_of_mem_take hldmem))
          · exact hle d h)
        (by
          intro d hd
          rw [matches_getFilter]
          simp only [decide_eq_true_eq, strLt_iff, hid]
          exact htd ld hldmem d hd)
        (by
          simp only [List.length_drop, List.length_cons] at hfuel ⊢
          omega)
      have hitems : ((x :: xs).take n).map decode = [] ↔ False := iff_false_intro hne
      simp only [paginate, hget, hitems, if_false, hstep]
      rw [← List.map_append, List.take_append_drop]

/-- The pagination protocol on a collection with pairwise distinct IDs, from
no token and with any page size: the pages deliver every stored item once, in
ascending ID, and the run then ends in the panic of the call that has nothing
left to return, not in an empty page. -/
theorem paginate_delivers_all_then_panics (c : Collection) (pageSize : Int) (fuel : Nat)
    (hc : (c.map (·._id)).Nodup) (hfuel : c.length < fuel) :
    paginate c pageSize fuel none =
      ((sortAsc c).map decode, Stop.failed .indexOutOfRange) := by
  refine paginate_of_split hc pageSize fuel none [] (sortAsc c) rfl ?_ ?_ ?_
  · intro d hd
    simp at hd
  · intro d _
    rw [matches_getFilter]
  · rw [(sortAsc_perm c).length_eq]
    exact hfuel

/-! ## The claims at concrete inputs -/

/-- C2: on the collection with IDs "a", "b", "c" and page size 2 the first
call returns [a, b] with token "b", the second [c] with token "c", and the
third, which has nothing left to return, ends in the index-out-of-range
panic instead of an empty page without token. -/
theorem pagination_third_call_panics :
    Get abc { PageSize := 2, Token := none } =
      .ok { Items := [⟨"a", "u1", "x"⟩, ⟨"b", "u2", "y"⟩], Token := some "b" } ∧
    Get abc { PageSize := 2, Token := some "b" } =
      .ok { Items := [⟨"c", "u1", "z"⟩], Token := some "c" } ∧
    Get abc { PageSize := 2, Token := some "c" } = .error .indexOutOfRange ∧
    paginate abc 2 4 none =
      ([⟨"a", "u1", "x"⟩, ⟨"b", "u2", "y"⟩, ⟨"c", "u1", "z"⟩],
        Stop.failed .indexOutOfRange) := by
  decide

theorem empty_page_panics_witness :
    (∀ d ∈ abc, d.matches (getFilter { PageSize := 2, Token := some "c" }) = false) ∧
    Get abc { PageSize := 2, Token := some "c" } = .error .indexOutOfRange ∧
    (∀ d ∈ abc,
      d.matches (getUserItemsFilter "nobody" { PageSize := 2, Token := none }) = false) ∧
    GetUserItems abc "nobody" { PageSize := 2, Token := none } = .error .indexOutOfRange :=
  ⟨by decide,
    (empty_page_panics abc "nobody" { PageSize := 2, Token := some "c" }).1 (by decide),
    by decide,
    (empty_page_panics abc "nobody" { PageSize := 2, Token := none }).2 (by decide)⟩

theorem token_is_last_id_witness :
    (Get abc { PageSize := 2, Token := none } =
        .ok { Items := [⟨"a", "u1", "x"⟩, ⟨"b", "u2", "y"⟩], Token := some "b" } ∨
      GetUserItems abc "u1" { PageSize := 2, Token := none } =
        .ok { Items := [⟨"a", "u1", "x"⟩, ⟨"b", "u2", "y"⟩], Token := some "b" }) ∧
    ([⟨"a", "u1", "x"⟩, ⟨"b", "u2", "y"⟩] : List Item) ≠ [] ∧
    ∃ last, ([⟨"a", "u1", "x"⟩, ⟨"b", "u2", "y"⟩] : List Item).getLast? = some last ∧
      (some "b" : Option String) = some last.ID :=
  ⟨Or.inl (by decide), by decide,
    token_is_last_id abc "u1" { PageSize := 2, Token := none }
      { Items := [⟨"a", "u1", "x"⟩, ⟨"b", "u2", "y"⟩], Token := some "b" }
      (Or.inl (by decide)) (by decide)⟩

theorem page_size_clamped_witness :
    ((0 : Int) < 1) ∧
    (Get abc { PageSize := 0, Token := none } = Get abc { PageSize := 10, Token := none } ∧
      GetUserItems abc "u1" { PageSize := 0, Token := none } =
        GetUserItems abc "u1" { PageSize := 10, Token := none }) ∧
    GetUserItems abc "u1" { PageSize := 0, Token := none } =
      .ok { Items := [⟨"a", "u1", "x"⟩, ⟨"c", "u1", "z"⟩], Token := some "c" } ∧
    (([⟨"a", "u1", "x"⟩, ⟨"c", "u1", "z"⟩] : List Item).length : Int) ≤
      (if (0 : Int) < 1 then 10 else 0) :=
  ⟨by decide,
    (page_size_clamped abc "u1" { PageSize := 0, Token := none }).2.2.1 (by decide),
    by decide,
    (page_size_clamped abc "u1" { PageSize := 0, Token := none }).2.2.2
      { Items := [⟨"a", "u1", "x"⟩, ⟨"c", "u1", "z"⟩], Token := some "c" }
      (Or.inr (by decide))⟩

theorem items_strictly_ascending_witness :
    (abc.map (·._id)).Nodup ∧
    (Get abc { PageSize := 2, Token := none } =
        .ok { Items := [⟨"a", "u1", "x"⟩, ⟨"b", "u2", "y"⟩], Token := some "b" } ∨
      GetUserItems abc "u1" { PageSize := 2, Token := none } =
        .ok { Items := [⟨"a", "u1", "x"⟩, ⟨"b", "u2", "y"⟩], Token := some "b" }) ∧
    ([⟨"a", "u1", "x"⟩, ⟨"b", "u2", "y"⟩] : List Item).Pairwise (fun a b => a.ID < b.ID) :=
  ⟨by decide, Or.inl (by decide),
    items_strictly_ascending abc "u1" { PageSize := 2, Token := none }
      { Items := [⟨"a", "u1", "x"⟩, ⟨"b", "u2", "y"⟩], Token := some "b" }
      (by decide) (Or.inl (by decide))⟩

theorem getUserItems_is_get_on_owner_witness :
    GetUserItems abc "u1" { PageSize := 2, Token := some "a" } =
      .ok { Items := [⟨"c", "u1", "z"⟩], Token := some "c" } ∧
    (∀ i ∈ ([⟨"c", "u1", "z"⟩] : List Item),
      i.OwnerID = "u1" ∧ ∀ t, (some "a" : Option String) = some t → t < i.ID) :=
  ⟨by decide,
    ((getUserItems_is_get_on_owner abc "u1" { PageSize := 2, Token := some "a" }).2
      { Items := [⟨"c", "u1", "z"⟩], Token := some "c" } (by decide)).1⟩

theorem getByIDs_nil_fails_else_membership_witness :
    (∀ id ∈ ["x", "y", "x"], id ∉ abc.map (·._id)) ∧
    GetByIDs abc Slice.nil = .error .badValue ∧
    GetByIDs abc (Slice.elems ["c", "zz", "a", "c"]) =
      .ok [⟨"a", "u1", "x"⟩, ⟨"c", "u1", "z"⟩] ∧
    GetByIDs abc (Slice.elems ["x", "y", "x"]) = .ok [] :=
  ⟨by decide, (getByIDs_nil_fails_else_membership abc ["x", "y", "x"]).1, by decide,
    (getByIDs_nil_fails_else_membership abc ["x", "y", "x"]).2.2.2 (by decide)⟩

theorem getByID_ignores_owner_witness :
    ({ _id := "b", fields := [("owner_id", "u2"), ("name", "y")] } : Document) ∈ abc ∧
    (abc.map (·._id)).Nodup ∧
    GetByID abc "u1" "b" = .ok ⟨"b", "u2", "y"⟩ :=
  ⟨by decide, by decide,
    (getByID_ignores_owner abc "b" "u1" "u2").2
      { _id := "b", fields := [("owner_id", "u2"), ("name", "y")] }
      (by decide) rfl (by decide)⟩

theorem paginate_delivers_all_then_panics_witness :
    (abc.map (·._id)).Nodup ∧ abc.length < 4 ∧
    paginate abc 2 4 none = ((sortAsc abc).map decode, Stop.failed .indexOutOfRange) :=
  ⟨by decide, by decide, paginate_delivers_all_then_panics abc 2 4 (by decide) (by decide)⟩

theorem updateBulk_sets_item_fields_witness :
    (stocked.map (·._id)).Nodup ∧ (delivery.map (·.ID)).Nodup ∧
    (UpdateBulk stocked delivery).2 = none ∧
    (UpdateBulk stocked delivery).1 =
      [ { _id := "a", fields := [("owner_id", "v"), ("name", "m"), ("color", "red")] },
        { _id := "d", fields := [("owner_id", "w"), ("name", "x")] } ] ∧
    (∀ i ∈ delivery, ∃ d ∈ (UpdateBulk stocked delivery).1, d._id = i.ID ∧ decode d = i ∧
      (∀ d0 ∈ stocked, d0._id = i.ID →
        ∀ k, k ≠ "owner_id" → k ≠ "name" → d.get k = d0.get k) ∧
      ((∀ d0 ∈ stocked, d0._id ≠ i.ID) →
        d = { _id := i.ID, fields := [("owner_id", i.OwnerID), ("name", i.Name)] })) :=
  ⟨by decide, by decide, by decide, by decide,
    (updateBulk_sets_item_fields stocked delivery (by decide) (by decide) (by decide)).2.2⟩

end Inventory
